import Mathlib

/-!
Shallow embedding of `src/utils.py` of PathCORE-T-analysis: a collection of
file-loading helpers (expression dataset, pathway definitions, significant
pathways, weight matrix).  Files are modelled as the list of their lines
(each line written in the file followed by one newline byte, so a zero-byte
file is the empty list); pandas tables are modelled by the `DataFrame`
structure below at the fidelity the loaders exercise: row index, index name,
column labels and the grid of cells (a missing cell, pandas `NaN`, is
`Option.none`).
-/

namespace PathCORE

/-- Python `str.split(sep)` for a one-character separator `sep`, on the
character list of the string: `split` of the empty string is `[[]]` (Python:
`"".split("\t") == [""]`), and consecutive separators yield empty pieces. -/
def splitOnCharList (sep : Char) : List Char → List (List Char)
  | [] => [[]]
  | c :: rest =>
    if c = sep then [] :: splitOnCharList sep rest
    else
      match splitOnCharList sep rest with
      | [] => [[c]]
      | f :: fs => (c :: f) :: fs

/-- Python `s.split(sep)` for a one-character separator, as strings. -/
def pySplit (sep : Char) (s : String) : List String :=
  (splitOnCharList sep s.toList).map (fun cs => String.mk cs)

/-- `current_line.split("\t")` as performed by `_weight_matrix_file_skip_rows`
on each line it reads. -/
def fields (s : String) : List String :=
  pySplit '\t' s

/-- The number of bytes a line occupies in the file: its UTF-8 size plus the
newline byte that terminates it. -/
def byteLen (s : String) : Nat :=
  s.utf8ByteSize + 1

/-- The byte offset of the first line after the block `lines`. -/
def byteSum (lines : List String) : Nat :=
  (lines.map byteLen).sum

/-- The errors the loaders can raise: the explicit `ValueError("... is
empty.")` of `_weight_matrix_file_skip_rows` (carrying the offending path, as
the message names the file), a pandas parse failure (`EmptyDataError` /
`ParserError`), and the pandas `ValueError` raised when a list of the wrong
length is assigned to `df.columns`. -/
inductive LoadError
  | emptyFile (path : String)
  | parseError
  | lengthMismatch
deriving DecidableEq

/-- A pandas column label: `read_csv` with `header=None` labels columns with
integers; `concat` can add string-labelled columns such as `"genes"`. -/
inductive ColLabel
  | ci (n : Nat)
  | cs (s : String)
deriving DecidableEq

/-- A pandas `DataFrame` at the fidelity the loaders exercise. -/
structure DataFrame where
  indexName : Option String
  index : List String
  cols : List ColLabel
  rows : List (List (Option String))
deriving DecidableEq

/-- `l.take k` when `nrows=k` was passed to `read_csv`, `l` unchanged when
`nrows` was not passed. -/
def takeOpt (nrows : Option Nat) (l : List α) : List α :=
  match nrows with
  | some k => l.take k
  | none => l

/-- `pandas.read_csv` with `sep="\t"`, `header=None`, optional `nrows` and
`index_col = 0` (`index_col := true`) or `index_col = None`
(`index_col := false`), reading the given lines: every line splits into its
tab-separated fields, `nrows` caps the rows read, an empty remainder is the
pandas `EmptyDataError` and a ragged table the pandas `ParserError` (pandas
pads short rows instead, a case no loader of this module reaches on the
uniform tables its callers parse), `index_col = 0` consumes the first field
of every row as the row label leaving the integer column labels `1..w-1`,
and without it the rows get the default `RangeIndex` and column labels
`0..w-1`. -/
def parse_fields (parsed : List (List String)) (index_col : Bool) :
    Except LoadError DataFrame :=
  match parsed with
  | [] => Except.error LoadError.parseError
  | r0 :: _ =>
    if parsed.all (fun r => r.length == r0.length) then
      if index_col then
        Except.ok
          { indexName := none
            index := parsed.map (fun r => r.headD "")
            cols := ((List.range r0.length).drop 1).map ColLabel.ci
            rows := parsed.map (fun r => (r.drop 1).map some) }
      else
        Except.ok
          { indexName := none
            index := (List.range parsed.length).map (fun i => toString i)
            cols := (List.range r0.length).map ColLabel.ci
            rows := parsed.map (fun r => r.map some) }
    else Except.error LoadError.parseError

def read_csv (lines : List String) (nrows : Option Nat) (index_col : Bool) :
    Except LoadError DataFrame :=
  parse_fields (takeOpt nrows (lines.map fields)) index_col

/-- The `while len(data) < n_features` loop of `_weight_matrix_file_skip_rows`,
fuel-indexed because the Python loop need not terminate: `pos` is the byte
offset of the line about to be checked (the value the Python variable `pos`
holds when the loop exits at that line: `0` before the first `readline`, and
`file.tell()` recorded just before each later line), `idx` its index, `rest`
the lines not yet read.  At end-of-file `readline()` returns the empty
string, which splits into one field and consumes no bytes, so the Python
loop then spins forever; `none` means the loop is still running when the
fuel runs out. -/
def skipScanAux (n_features : Nat) : Nat → Nat → Nat → List String → Option (Nat × Nat)
  | 0, _, _, _ => none
  | fuel + 1, pos, idx, rest =>
    match rest with
    | [] =>
      if (fields "").length < n_features then
        skipScanAux n_features fuel pos (idx + 1) []
      else some (pos, idx)
    | current_line :: rest_after =>
      if (fields current_line).length < n_features then
        skipScanAux n_features fuel (pos + byteLen current_line) (idx + 1) rest_after
      else some (pos, idx)

/-- `_weight_matrix_file_skip_rows(path_to_file, n_features, kwargs)`: raise
the empty-file `ValueError` on a zero-byte file, otherwise scan for the
first line whose tab-split field count reaches `n_features`, seek back to
the byte offset recorded just before it and hand the remainder to
`pd.read_csv(file, **kwargs)`.  The outer `Option` is the fuel: `none`
means the Python scan has not terminated within `fuel` iterations. -/
def weight_matrix_file_skip_rows (path_to_file : String) (lines : List String)
    (n_features : Nat) (nrows : Option Nat) (index_col : Bool) (fuel : Nat) :
    Option (Except LoadError DataFrame) :=
  if lines.isEmpty then some (Except.error (LoadError.emptyFile path_to_file))
  else
    match skipScanAux n_features fuel 0 0 lines with
    | none => none
    | some (_pos, idx) => some (read_csv (lines.drop idx) nrows index_col)

/-- `pd.concat([weight_matrix, genes_df], axis=1)` for the one shape this
module builds: both operands carry the default `RangeIndex`, so the outer
join pads the shorter operand with `NaN` cells, and the single `genes`
column is appended after the weight columns. -/
def concat_genes (wm : DataFrame) (genes : List String) : DataFrame :=
  let len := max wm.rows.length genes.length
  { indexName := none
    index := (List.range len).map (fun i => toString i)
    cols := wm.cols ++ [ColLabel.cs "genes"]
    rows := (List.range len).map (fun i =>
      wm.rows.getD i (List.replicate wm.cols.length none) ++ [genes[i]?]) }

/-- The position of the first column carrying a given label. -/
def colIdx (cols : List ColLabel) (c : ColLabel) : Option Nat :=
  match cols with
  | [] => none
  | c0 :: rest => if c0 = c then some 0 else (colIdx rest c).map (fun j => j + 1)

/-- `df.set_index(c, inplace=True)`: the column labelled `c` becomes the row
index (keeping `c` as the index name) and leaves the column set.  pandas
raises `KeyError` when no column carries the label; this development only
calls it on a frame that has just gained the column, so that branch returns
the frame unchanged. -/
def set_index (df : DataFrame) (c : String) : DataFrame :=
  match colIdx df.cols (ColLabel.cs c) with
  | none => df
  | some j =>
    { indexName := some c
      index := df.rows.map (fun r => (r.getD j none).getD "NaN")
      cols := df.cols.eraseIdx j
      rows := df.rows.map (fun r => r.eraseIdx j) }

/-- `df.columns = labels`: pandas raises a length-mismatch `ValueError`
unless exactly one label per existing column is assigned. -/
def set_columns (df : DataFrame) (labels : List ColLabel) :
    Except LoadError DataFrame :=
  if labels.length == df.cols.length then Except.ok { df with cols := labels }
  else Except.error LoadError.lengthMismatch

/-- The `nrows` entry of `read_csv_args`: Python `if n_genes:` is a
truthiness test, so `n_genes = 0` leaves `nrows` unset exactly like
`n_genes = None`. -/
def effective_nrows (n_genes : Option Nat) : Option Nat :=
  match n_genes with
  | some k => if k = 0 then none else some k
  | none => none

/-- The number of data rows `read_csv` keeps out of `m` detected rows under
an optional `nrows` cap. -/
def cappedRows (nrows : Option Nat) (m : Nat) : Nat :=
  match nrows with
  | some k => min k m
  | none => m

/-- `load_weight_matrix(path_to_file, n_features, n_genes, path_to_genes_file)`:
`index_col` is `0` exactly when no genes file is supplied, `nrows` is set
exactly when `n_genes` is truthy, the row-skipping helper reads the matrix,
and then either the genes file (one identifier per line, read with
`header=None, names=["genes"]` into the list `genes`) is concatenated and
promoted to the index, or the index is renamed `"genes"` and the columns are
relabelled `0..n_features-1`.  The outer `Option` is the fuel of the
row-skipping scan. -/
def load_weight_matrix (path_to_file : String) (lines : List String)
    (n_features : Nat) (n_genes : Option Nat)
    (genesFile : Option (List String)) (fuel : Nat) :
    Option (Except LoadError DataFrame) :=
  let index_col : Bool := genesFile.isNone
  let nrows : Option Nat := effective_nrows n_genes
  match weight_matrix_file_skip_rows path_to_file lines n_features nrows index_col fuel with
  | none => none
  | some (Except.error e) => some (Except.error e)
  | some (Except.ok wm) =>
    match genesFile with
    | some genes =>
      some (Except.ok (set_index (concat_genes wm genes) "genes"))
    | none =>
      some (set_columns { wm with indexName := some "genes" }
        ((List.range n_features).map ColLabel.ci))

/-- `load_expression_dataset(path_to_file)`: read the tab-delimited file with
a header row, index on the first column, drop every row whose index label
contains the character `?` (`.str.contains('?', regex=False)` with a
one-character pattern is containment of that character), and sort by index
ascending (`sort_index`, modelled by the stable `mergeSort` under the
lexicographic string order pandas uses).  A row is its gene identifier
paired with its remaining fields. -/
def load_expression_dataset (lines : List String) : List (String × List String) :=
  match lines with
  | [] => []
  | _header :: dataLines =>
    let expression_dataset :=
      dataLines.map (fun s => ((fields s).headD "", (fields s).drop 1))
    let filtered :=
      expression_dataset.filter (fun r => !(r.1.toList.contains '?'))
    filtered.mergeSort (fun a b => decide (a.1 ≤ b.1))

/-- One row of the headerless pathway-definitions file: pathway name, gene
count, semicolon-delimited gene list. -/
structure PathwayRow where
  pw : String
  size : Nat
  genes : String

/-- The key a pathway row is stored under: its name, put through
`shorten_pathway_names` when that function was supplied. -/
def shorten_key (shorten_pathway_names : Option (String → String))
    (pw : String) : String :=
  match shorten_pathway_names with
  | some f => f pw
  | none => pw

/-- The gene set of one pathway row: `set(row["genes"].split(";"))`. -/
def row_gene_set (row : PathwayRow) : Finset String :=
  (pySplit ';' row.genes).toFinset

/-- `load_pathway_definitions(path_to_file, shorten_pathway_names)`: each
row's gene string splits on `";"` into the gene set, the row's (optionally
shortened) pathway name is the key, and rows are inserted in file order into
a dictionary, so a later row whose shortened name collides silently
overwrites the earlier entry.  The dictionary is modelled as its lookup
function; `pd_insert` is the body of the `for index, row in ... .iterrows()`
loop, one dictionary assignment. -/
def pd_insert (shorten_pathway_names : Option (String → String))
    (m : String → Option (Finset String)) (row : PathwayRow) :
    String → Option (Finset String) :=
  fun k =>
    if k = shorten_key shorten_pathway_names row.pw then some (row_gene_set row)
    else m k

def load_pathway_definitions (rows : List PathwayRow)
    (shorten_pathway_names : Option (String → String)) :
    String → Option (Finset String) :=
  rows.foldl (pd_insert shorten_pathway_names) (fun _ => none)

/-- One row of the significant-pathways file, per its header columns
`feature` (an integer feature identifier), `side` and `pathway`. -/
structure SigRow where
  feature : Nat
  side : String
  pathway : String
deriving DecidableEq

/-- The optional application of `shorten_pathway_names` to the `pathway`
column. -/
def apply_shorten (shorten : Option (String → String)) (rows : List SigRow) :
    List SigRow :=
  match shorten with
  | some f => rows.map (fun r => { r with pathway := f r.pathway })
  | none => rows

/-- The comparison `sort_values(by=["feature", "side"])` sorts under:
ascending by `feature`, ties broken ascending by `side`. -/
def sigLe (a b : SigRow) : Bool :=
  decide (a.feature < b.feature) ||
    (decide (a.feature = b.feature) && decide (a.side ≤ b.side))

/-- `load_significant_pathways_file(path_to_file, shorten_pathway_names)`:
optionally shorten the `pathway` column, then
`sort_values(by=["feature", "side"])` — a multi-column pandas sort runs
through `numpy.lexsort`, which is stable, so it is modelled by the stable
`mergeSort` under `sigLe`. -/
def load_significant_pathways_file (rows : List SigRow)
    (shorten_pathway_names : Option (String → String)) : List SigRow :=
  (apply_shorten shorten_pathway_names rows).mergeSort sigLe

/-! ### Basic facts about splitting and byte offsets -/

theorem splitOnCharList_ne_nil (sep : Char) (cs : List Char) :
    splitOnCharList sep cs ≠ [] := by
  induction cs with
  | nil => simp [splitOnCharList]
  | cons c rest ih =>
    simp only [splitOnCharList]
    by_cases h : c = sep
    · simp [h]
    · rw [if_neg h]
      cases hs : splitOnCharList sep rest with
      | nil => simp
      | cons f fs => simp

theorem fields_length_pos (s : String) : 1 ≤ (fields s).length := by
  have h := splitOnCharList_ne_nil '\t' s.toList
  simp only [fields, pySplit, List.length_map]
  cases hs : splitOnCharList '\t' s.toList with
  | nil => exact absurd hs h
  | cons f fs => simp

theorem fields_empty_string : fields "" = [""] := rfl

theorem byteSum_nil : byteSum [] = 0 := rfl

theorem byteSum_cons (a : String) (t : List String) :
    byteSum (a :: t) = byteLen a + byteSum t := by
  simp [byteSum]

/-! ### The row-skipping scan -/

/-- The scan checks the lines of `pre` one after the other, each splitting
into fewer than `n_features` fields, and stops at `l`, the first line whose
field count reaches `n_features`: it returns the byte offset and the index
of `l`. -/
theorem skipScanAux_append (n_features : Nat) (l : String) (post : List String)
    (hl : n_features ≤ (fields l).length) :
    ∀ (pre : List String), (∀ s ∈ pre, (fields s).length < n_features) →
      ∀ (fuel pos idx : Nat), pre.length < fuel →
        skipScanAux n_features fuel pos idx (pre ++ l :: post)
          = some (pos + byteSum pre, idx + pre.length) := by
  intro pre
  induction pre with
  | nil =>
    intro _ fuel pos idx hfuel
    cases fuel with
    | zero => omega
    | succ fuel =>
      simp only [List.nil_append, skipScanAux]
      rw [if_neg (Nat.not_lt.mpr hl)]
      simp [byteSum]
  | cons a pre ih =>
    intro hpre fuel pos idx hfuel
    cases fuel with
    | zero => omega
    | succ fuel =>
      simp only [List.cons_append, skipScanAux]
      rw [if_pos (hpre a (List.mem_cons_self a pre))]
      rw [ih (fun s hs => hpre s (List.mem_cons_of_mem a hs)) fuel
        (pos + byteLen a) (idx + 1) (by simp at hfuel; omega)]
      rw [byteSum_cons]
      simp only [List.length_cons]
      congr 2 <;> omega

/-- When every line of `rest` splits into fewer than `n_features ≥ 2` fields,
the while-loop never exits, whatever the fuel: at end-of-file `readline()`
keeps returning the empty string, whose single field keeps the loop
condition true. -/
theorem skipScanAux_no_qualifying_line (n_features : Nat) (hn : 2 ≤ n_features) :
    ∀ (fuel pos idx : Nat) (rest : List String),
      (∀ s ∈ rest, (fields s).length < n_features) →
      skipScanAux n_features fuel pos idx rest = none := by
  intro fuel
  induction fuel with
  | zero => intro pos idx rest _; rfl
  | succ fuel ih =>
    intro pos idx rest hall
    cases rest with
    | nil =>
      simp only [skipScanAux]
      rw [if_pos]
      · exact ih pos (idx + 1) [] (by simp)
      · have h1 : (fields "").length = 1 := rfl
        omega
    | cons c r =>
      simp only [skipScanAux]
      rw [if_pos (hall c (List.mem_cons_self c r))]
      exact ih (pos + byteLen c) (idx + 1) r
        (fun s hs => hall s (List.mem_cons_of_mem c hs))

/-- C5: on a zero-byte weight-matrix file, `load_weight_matrix` raises the
empty-file error naming the offending file and returns no table; the error
comes before any scanning or parsing, as the result is this error for every
fuel, including zero. -/
theorem load_weight_matrix_empty_file (path_to_file : String)
    (n_features : Nat) (n_genes : Option Nat)
    (genesFile : Option (List String)) (fuel : Nat) :
    load_weight_matrix path_to_file [] n_features n_genes genesFile fuel
      = some (Except.error (LoadError.emptyFile path_to_file)) := by
  cases genesFile <;> rfl

/-- C10: calling `load_weight_matrix` with `n_genes = 0` leaves the `nrows`
cap unset, exactly as if `n_genes` had been omitted: Python `if n_genes:`
is a truthiness test. -/
theorem load_weight_matrix_n_genes_zero (path_to_file : String)
    (lines : List String) (n_features : Nat)
    (genesFile : Option (List String)) (fuel : Nat) :
    load_weight_matrix path_to_file lines n_features (some 0) genesFile fuel
      = load_weight_matrix path_to_file lines n_features none genesFile fuel := rfl

/-- C3 (the code, not the claim): on a non-empty file none of whose lines
ever reaches a tab-split field count of `n_features ≥ 2`, the
`load_weight_matrix` call does NOT terminate: the while-loop spins at
end-of-file forever (the model returns `none` for every fuel), so no parse
error on an empty remainder is ever raised. -/
theorem load_weight_matrix_no_qualifying_line_diverges (path_to_file : String)
    (lines : List String) (n_features : Nat) (n_genes : Option Nat)
    (genesFile : Option (List String)) (fuel : Nat)
    (hn : 2 ≤ n_features)
    (hall : ∀ s ∈ lines, (fields s).length < n_features)
    (hne : lines ≠ []) :
    load_weight_matrix path_to_file lines n_features n_genes genesFile fuel
      = none := by
  have hempty : lines.isEmpty = false := by
    cases lines with
    | nil => exact absurd rfl hne
    | cons a t => rfl
  simp only [load_weight_matrix, weight_matrix_file_skip_rows, hempty,
    Bool.false_eq_true, if_false]
  rw [skipScanAux_no_qualifying_line n_features hn fuel 0 0 lines hall]

theorem load_weight_matrix_no_qualifying_line_diverges_witness :
    (2 : Nat) ≤ 2 ∧ (∀ s ∈ ["a"], (fields s).length < 2)
      ∧ (["a"] : List String) ≠ []
      ∧ load_weight_matrix "wm.txt" ["a"] 2 none none 30 = none :=
  ⟨by decide, by decide, by decide,
    load_weight_matrix_no_qualifying_line_diverges "wm.txt" ["a"] 2 none none 30
      (by decide) (by decide) (by decide)⟩

/-- C2: on a file whose lines are `pre` (each splitting into fewer than
`n_features` tab fields), then a first qualifying line `l` (field count at
least `n_features`), then anything, the scan returns exactly the byte offset
and index of `l`: the read position is rewound to the byte offset recorded
just before `l`, the lines of `pre` are discarded, and `l` is the first line
handed to the tabular parser. -/
theorem weight_matrix_skip_rows_first_qualifying (path_to_file : String)
    (pre post : List String) (l : String) (n_features fuel : Nat)
    (nrows : Option Nat) (index_col : Bool)
    (hpre : ∀ s ∈ pre, (fields s).length < n_features)
    (hl : n_features ≤ (fields l).length)
    (hfuel : pre.length < fuel) :
    skipScanAux n_features fuel 0 0 (pre ++ l :: post)
        = some (byteSum pre, pre.length)
      ∧ (pre ++ l :: post).drop pre.length = l :: post
      ∧ weight_matrix_file_skip_rows path_to_file (pre ++ l :: post)
            n_features nrows index_col fuel
          = some (read_csv (l :: post) nrows index_col) := by
  have hscan := skipScanAux_append n_features l post hl pre hpre fuel 0 0 hfuel
  simp only [Nat.zero_add] at hscan
  have hdrop : (pre ++ l :: post).drop pre.length = l :: post :=
    List.drop_left pre (l :: post)
  refine ⟨hscan, hdrop, ?_⟩
  have hempty : (pre ++ l :: post).isEmpty = false := by cases pre <;> rfl
  simp only [weight_matrix_file_skip_rows, hempty, Bool.false_eq_true,
    if_false, hscan, hdrop]

theorem weight_matrix_skip_rows_first_qualifying_witness :
    skipScanAux 2 2 0 0 (["x"] ++ "a\tb" :: ["c\td"]) = some (2, 1)
      ∧ (["x"] ++ "a\tb" :: ["c\td"]).drop 1 = "a\tb" :: ["c\td"]
      ∧ weight_matrix_file_skip_rows "wm.txt" (["x"] ++ "a\tb" :: ["c\td"])
            2 none true 2
          = some (read_csv ("a\tb" :: ["c\td"]) none true) :=
  weight_matrix_skip_rows_first_qualifying "wm.txt" ["x"] ["c\td"] "a\tb" 2 2
    none true (by decide) (by decide) (by decide)

/-! ### Pathway definitions: overwrite semantics -/

theorem foldl_pd_insert_no_match (shorten_pathway_names : Option (String → String))
    (k : String) :
    ∀ (post : List PathwayRow) (m : String → Option (Finset String)),
      (∀ q ∈ post, shorten_key shorten_pathway_names q.pw ≠ k) →
      List.foldl (pd_insert shorten_pathway_names) m post k = m k := by
  intro post
  induction post with
  | nil => intro m _; rfl
  | cons q post ih =>
    intro m hpost
    simp only [List.foldl_cons]
    rw [ih _ (fun q2 h2 => hpost q2 (List.mem_cons_of_mem q h2))]
    simp only [pd_insert]
    rw [if_neg (fun h => hpost q (List.mem_cons_self q post) h.symm)]

/-- C7: when two or more rows collapse to the same shortened pathway name
`k`, the dictionary entry at `k` is the gene set of the last such row in
file order — each later colliding row overwrites the earlier entry, no
union is taken. -/
theorem load_pathway_definitions_overwrite
    (rows pre post : List PathwayRow) (r : PathwayRow)
    (shorten_pathway_names : Option (String → String)) (k : String)
    (hsplit : rows = pre ++ r :: post)
    (hr : shorten_key shorten_pathway_names r.pw = k)
    (hpost : ∀ q ∈ post, shorten_key shorten_pathway_names q.pw ≠ k)
    (_hcollide : ∃ q ∈ pre, shorten_key shorten_pathway_names q.pw = k) :
    load_pathway_definitions rows shorten_pathway_names k
      = some (row_gene_set r) := by
  subst hsplit
  unfold load_pathway_definitions
  rw [List.foldl_append]
  simp only [List.foldl_cons]
  rw [foldl_pd_insert_no_match shorten_pathway_names k post _ hpost]
  simp only [pd_insert]
  rw [hr]
  simp

theorem load_pathway_definitions_overwrite_witness :
    ([PathwayRow.mk "pwA" 2 "g1;g2", PathwayRow.mk "pwB" 1 "g3"]
        = [PathwayRow.mk "pwA" 2 "g1;g2"] ++ PathwayRow.mk "pwB" 1 "g3" :: [])
      ∧ shorten_key (some (fun _ => "P")) (PathwayRow.mk "pwB" 1 "g3").pw = "P"
      ∧ (∀ q ∈ ([] : List PathwayRow),
          shorten_key (some (fun _ => "P")) q.pw ≠ "P")
      ∧ (∃ q ∈ [PathwayRow.mk "pwA" 2 "g1;g2"],
          shorten_key (some (fun _ => "P")) q.pw = "P")
      ∧ load_pathway_definitions
            [PathwayRow.mk "pwA" 2 "g1;g2", PathwayRow.mk "pwB" 1 "g3"]
            (some (fun _ => "P")) "P"
          = some (row_gene_set (PathwayRow.mk "pwB" 1 "g3")) :=
  ⟨rfl, rfl, by simp, ⟨PathwayRow.mk "pwA" 2 "g1;g2", by simp, rfl⟩,
    load_pathway_definitions_overwrite
      [PathwayRow.mk "pwA" 2 "g1;g2", PathwayRow.mk "pwB" 1 "g3"]
      [PathwayRow.mk "pwA" 2 "g1;g2"] [] (PathwayRow.mk "pwB" 1 "g3")
      (some (fun _ => "P")) "P" rfl rfl (by simp)
      ⟨PathwayRow.mk "pwA" 2 "g1;g2", by simp, rfl⟩⟩

/-! ### Expression dataset: filtering and sorting -/

/-- C6: the table `load_expression_dataset` returns has no row whose index
label contains the character `?`, and its index is sorted ascending. -/
theorem load_expression_dataset_no_qmark_sorted (lines : List String) :
    (∀ r ∈ load_expression_dataset lines, r.1.toList.contains '?' = false)
      ∧ List.Pairwise (fun a b : String × List String => a.1 ≤ b.1)
          (load_expression_dataset lines) := by
  cases lines with
  | nil => simp [load_expression_dataset]
  | cons header dataLines =>
    simp only [load_expression_dataset]
    constructor
    · intro r hr
      have hr2 := List.mem_mergeSort.mp hr
      have hp := List.of_mem_filter hr2
      simpa using hp
    · refine List.Pairwise.imp (fun h => of_decide_eq_true h)
        (List.sorted_mergeSort ?_ ?_ _)
      · intro a b c hab hbc
        exact decide_eq_true
          (le_trans (of_decide_eq_true hab) (of_decide_eq_true hbc))
      · intro a b
        rcases le_total a.1 b.1 with h | h <;> simp [h]

/-! ### Significant pathways: lexicographic sort, stability -/

theorem sigLe_trans (a b c : SigRow) :
    sigLe a b = true → sigLe b c = true → sigLe a c = true := by
  simp only [sigLe, Bool.or_eq_true, Bool.and_eq_true, decide_eq_true_eq]
  rintro (h1 | ⟨h1, h1s⟩) (h2 | ⟨h2, h2s⟩)
  · exact Or.inl (lt_trans h1 h2)
  · exact Or.inl (h2 ▸ h1)
  · exact Or.inl (h1 ▸ h2)
  · exact Or.inr ⟨h1.trans h2, le_trans h1s h2s⟩

theorem sigLe_total (a b : SigRow) : (sigLe a b || sigLe b a) = true := by
  simp only [sigLe, Bool.or_eq_true, Bool.and_eq_true, decide_eq_true_eq]
  rcases Nat.lt_trichotomy a.feature b.feature with h | h | h
  · exact Or.inl (Or.inl h)
  · rcases le_total a.side b.side with hs | hs
    · exact Or.inl (Or.inr ⟨h, hs⟩)
    · exact Or.inr (Or.inr ⟨h.symm, hs⟩)
  · exact Or.inr (Or.inl h)

/-- C8: the table `load_significant_pathways_file` returns is sorted: for
any two rows, the earlier one has a smaller `feature`, or an equal `feature`
and a `side` at most the later one's. -/
theorem load_significant_pathways_file_sorted (rows : List SigRow)
    (shorten_pathway_names : Option (String → String)) :
    List.Pairwise
      (fun a b : SigRow =>
        a.feature < b.feature ∨ (a.feature = b.feature ∧ a.side ≤ b.side))
      (load_significant_pathways_file rows shorten_pathway_names) := by
  unfold load_significant_pathways_file
  refine List.Pairwise.imp ?_ (List.sorted_mergeSort sigLe_trans sigLe_total _)
  intro a b h
  simpa only [sigLe, Bool.or_eq_true, Bool.and_eq_true, decide_eq_true_eq]
    using h

/-- C9: the sort in `load_significant_pathways_file` is stable — the rows
carrying any one `(feature, side)` key appear in the output in exactly the
order the input file held them. -/
theorem load_significant_pathways_file_sort_stable (rows : List SigRow)
    (shorten_pathway_names : Option (String → String)) (f : Nat) (s : String) :
    (load_significant_pathways_file rows shorten_pathway_names).filter
        (fun r => decide (r.feature = f) && decide (r.side = s))
      = (apply_shorten shorten_pathway_names rows).filter
          (fun r => decide (r.feature = f) && decide (r.side = s)) := by
  unfold load_significant_pathways_file
  set l := apply_shorten shorten_pathway_names rows with hl
  set p : SigRow → Bool := fun r => decide (r.feature = f) && decide (r.side = s)
    with hp
  have hperm : ((l.mergeSort sigLe).filter p).Perm (l.filter p) :=
    (List.mergeSort_perm l sigLe).filter p
  have hkey : ∀ r ∈ l.filter p, r.feature = f ∧ r.side = s := by
    intro r hr
    have hpr := List.of_mem_filter hr
    simp only [hp, Bool.and_eq_true, decide_eq_true_eq] at hpr
    exact hpr
  have hpair : (l.filter p).Pairwise (fun a b => sigLe a b = true) := by
    refine List.pairwise_of_forall_mem_list ?_
    intro a ha b hb
    obtain ⟨haf, has⟩ := hkey a ha
    obtain ⟨hbf, hbs⟩ := hkey b hb
    simp [sigLe, haf, hbf, has, hbs]
  have hsub : (l.filter p).Sublist (l.mergeSort sigLe) :=
    List.sublist_mergeSort sigLe_trans sigLe_total hpair (List.filter_sublist l)
  have hsub2 : ((l.filter p).filter p).Sublist ((l.mergeSort sigLe).filter p) :=
    hsub.filter p
  have hff : (l.filter p).filter p = l.filter p := by
    rw [List.filter_filter]
    have hpp : (fun a => p a && p a) = p := by
      funext a
      exact Bool.and_self (p a)
    rw [hpp]
  rw [hff] at hsub2
  exact (hsub2.eq_of_length (hperm.length_eq.symm)).symm

/-! ### Weight matrix: shape of the loaded table -/

theorem takeOpt_map (nrows : Option Nat) (g : α → β) (l : List α) :
    takeOpt nrows (l.map g) = (takeOpt nrows l).map g := by
  cases nrows <;> simp [takeOpt, List.map_take]

theorem takeOpt_subset (nrows : Option Nat) (l : List α) :
    ∀ x ∈ takeOpt nrows l, x ∈ l := by
  cases nrows with
  | none => intro x hx; exact hx
  | some k => intro x hx; exact List.take_subset k l hx

theorem takeOpt_length (nrows : Option Nat) (l : List α) :
    (takeOpt nrows l).length = cappedRows nrows l.length := by
  cases nrows <;> simp [takeOpt, cappedRows, List.length_take]

theorem effective_nrows_pos {n_genes : Option Nat} {k : Nat}
    (h : effective_nrows n_genes = some k) : 1 ≤ k := by
  cases n_genes with
  | none => exact absurd h (by simp [effective_nrows])
  | some m =>
    by_cases hm : m = 0
    · exact absurd h (by simp [effective_nrows, hm])
    · simp only [effective_nrows, if_neg hm, Option.some.injEq] at h
      omega

theorem takeOpt_effective_cons (n_genes : Option Nat) (d0 : α) (rest : List α) :
    ∃ t, takeOpt (effective_nrows n_genes) (d0 :: rest) = d0 :: t := by
  cases hn : effective_nrows n_genes with
  | none => exact ⟨rest, rfl⟩
  | some k =>
    have hk : 1 ≤ k := effective_nrows_pos hn
    obtain ⟨k2, rfl⟩ : ∃ k2, k = k2 + 1 := ⟨k - 1, by omega⟩
    exact ⟨rest.take k2, by simp [takeOpt, List.take_succ_cons]⟩

theorem read_csv_eq_parse (lines : List String) (nrows : Option Nat)
    (index_col : Bool) :
    read_csv lines nrows index_col
      = parse_fields ((takeOpt nrows lines).map fields) index_col := by
  unfold read_csv
  rw [takeOpt_map]

/-- After the scan, the helper hands exactly the remaining lines to
`read_csv`. -/
theorem weight_matrix_file_skip_rows_eq (path_to_file : String)
    (pre post : List String) (l : String) (n_features fuel : Nat)
    (nrows : Option Nat) (index_col : Bool)
    (hpre : ∀ s ∈ pre, (fields s).length < n_features)
    (hl : n_features ≤ (fields l).length)
    (hfuel : pre.length < fuel) :
    weight_matrix_file_skip_rows path_to_file (pre ++ l :: post)
        n_features nrows index_col fuel
      = some (read_csv (l :: post) nrows index_col) := by
  have hscan := skipScanAux_append n_features l post hl pre hpre fuel 0 0 hfuel
  simp only [Nat.zero_add] at hscan
  have hempty : (pre ++ l :: post).isEmpty = false := by cases pre <;> rfl
  simp only [weight_matrix_file_skip_rows, hempty, Bool.false_eq_true,
    if_false, hscan, List.drop_left pre (l :: post)]

/-- `parse_fields` on a non-empty uniform table of width `nf`: both with and
without `index_col = 0`. -/
theorem parse_fields_uniform (s0 : String) (rest : List String) (nf : Nat)
    (hw : ∀ s ∈ s0 :: rest, (fields s).length = nf) :
    (parse_fields ((s0 :: rest).map fields) false = Except.ok
      { indexName := none
        index := (List.range (s0 :: rest).length).map (fun i => toString i)
        cols := (List.range nf).map ColLabel.ci
        rows := (s0 :: rest).map (fun s => (fields s).map some) })
    ∧ (parse_fields ((s0 :: rest).map fields) true = Except.ok
      { indexName := none
        index := (s0 :: rest).map (fun s => (fields s).headD "")
        cols := ((List.range nf).drop 1).map ColLabel.ci
        rows := (s0 :: rest).map (fun s => ((fields s).drop 1).map some) }) := by
  have h0 : (fields s0).length = nf := hw s0 (List.mem_cons_self s0 rest)
  have hall : ∀ parsed, parsed = (s0 :: rest).map fields →
      parsed.all (fun r => r.length == (fields s0).length) = true := by
    intro parsed hparsed
    subst hparsed
    rw [List.all_eq_true]
    intro x hx
    rw [List.mem_map] at hx
    obtain ⟨s, hs, rfl⟩ := hx
    simp [hw s hs, h0]
  constructor
  · simp only [List.map_cons, parse_fields]
    rw [if_pos (by simpa using hall ((s0 :: rest).map fields) rfl)]
    simp only [if_false, Bool.false_eq_true]
    simp [DataFrame.mk.injEq, List.map_map, Function.comp, h0,
      List.length_map]
  · simp only [List.map_cons, parse_fields]
    rw [if_pos (by simpa using hall ((s0 :: rest).map fields) rfl)]
    simp only [if_true]
    simp [DataFrame.mk.injEq, List.map_map, Function.comp, h0]

theorem getD_append_singleton (l : List α) (x : α) (d : α) :
    (l ++ [x]).getD l.length d = x := by
  induction l with
  | nil => rfl
  | cons a t ih => simp [ih]

theorem getD_append_singleton_of_length (l : List α) (x d : α) (n : Nat)
    (h : l.length = n) : (l ++ [x]).getD n d = x :=
  h ▸ getD_append_singleton l x d

theorem eraseIdx_append_singleton (l : List α) (x : α) :
    (l ++ [x]).eraseIdx l.length = l := by
  induction l with
  | nil => rfl
  | cons a t ih =>
    simp only [List.cons_append, List.length_cons, List.eraseIdx_cons_succ]
    rw [ih]

theorem eraseIdx_append_singleton_of_length (l : List α) (x : α) (n : Nat)
    (h : l.length = n) : (l ++ [x]).eraseIdx n = l :=
  h ▸ eraseIdx_append_singleton l x

theorem colIdx_append_singleton (cols : List ColLabel) (c : ColLabel)
    (h : c ∉ cols) :
    colIdx (cols ++ [c]) c = some cols.length := by
  induction cols with
  | nil => simp [colIdx]
  | cons c0 t ih =>
    have hne : ¬ (c0 = c) := fun he => h (he ▸ List.mem_cons_self c0 t)
    have ht : c ∉ t := fun hm => h (List.mem_cons_of_mem c0 hm)
    simp only [List.cons_append, colIdx]
    rw [if_neg hne]
    show Option.map (fun j => j + 1) (colIdx (t ++ [c]) c)
      = some (c0 :: t).length
    rw [ih ht]
    simp

theorem range_map_getD (l : List α) (d : α) :
    (List.range l.length).map (fun i => l.getD i d) = l := by
  induction l with
  | nil => rfl
  | cons a t ih =>
    rw [List.length_cons, List.range_succ_eq_map]
    simp only [List.map_cons, List.map_map, List.getD_cons_zero]
    have hcomp : ((fun i => (a :: t).getD i d) ∘ Nat.succ)
        = (fun i => t.getD i d) := by
      funext i
      simp [Function.comp, List.getD_cons_succ]
    rw [hcomp, ih]

/-- Concatenating the genes column to a weight matrix whose rows all have
width `nf` and whose row count matches the genes list, then promoting it to
the index, yields the weight matrix indexed by the genes. -/
theorem set_index_concat_genes (ixn : Option String) (ix : List String)
    (nf : Nat) (wrows : List (List (Option String))) (genes : List String)
    (hlen : wrows.length = genes.length)
    (hw : ∀ r ∈ wrows, r.length = nf) :
    set_index (concat_genes
        { indexName := ixn, index := ix,
          cols := (List.range nf).map ColLabel.ci, rows := wrows } genes)
        "genes"
      = { indexName := some "genes", index := genes,
          cols := (List.range nf).map ColLabel.ci, rows := wrows } := by
  have hnotin : ColLabel.cs "genes" ∉ (List.range nf).map ColLabel.ci := by
    simp
  have hlenmax : max wrows.length genes.length = genes.length := by
    rw [hlen, Nat.max_self]
  have hrowlen2 : ∀ i < genes.length,
      (wrows.getD i (List.replicate nf none)).length = nf := by
    intro i hi
    have hi2 : i < wrows.length := by omega
    rw [List.getD_eq_getElem _ _ hi2]
    exact hw _ (List.getElem_mem hi2)
  simp only [concat_genes, set_index, hlenmax]
  rw [colIdx_append_singleton _ _ hnotin]
  simp only [List.length_map, List.length_range, List.map_map,
    DataFrame.mk.injEq]
  refine ⟨trivial, ?_, ?_, ?_⟩
  · -- the promoted index is the genes list
    have hpt : ∀ i ∈ List.range genes.length,
        ((fun r => (r.getD nf none).getD "NaN") ∘ fun i =>
            wrows.getD i (List.replicate nf none) ++ [genes[i]?]) i
          = genes.getD i "NaN" := by
      intro i hi
      rw [List.mem_range] at hi
      have hr := hrowlen2 i hi
      simp only [Function.comp]
      rw [getD_append_singleton_of_length _ _ _ _ hr,
        List.getElem?_eq_getElem hi, List.getD_eq_getElem genes "NaN" hi]
      rfl
    rw [List.map_congr_left hpt, range_map_getD]
  · -- the genes column is removed again
    have hc := eraseIdx_append_singleton ((List.range nf).map ColLabel.ci)
      (ColLabel.cs "genes")
    simp only [List.length_map, List.length_range] at hc
    exact hc
  · -- the weight rows are unchanged
    have hpt : ∀ i ∈ List.range genes.length,
        ((fun r => r.eraseIdx nf) ∘ fun i =>
            wrows.getD i (List.replicate nf none) ++ [genes[i]?]) i
          = wrows.getD i (List.replicate nf none) := by
      intro i hi
      rw [List.mem_range] at hi
      have hr := hrowlen2 i hi
      simp only [Function.comp]
      rw [eraseIdx_append_singleton_of_length _ _ _ hr]
    rw [List.map_congr_left hpt, ← hlen, range_map_getD]

/-- The genes-file branch of `load_weight_matrix` on a well-formed file:
`junk` metadata lines (each under `nf` tab fields), then uniform data rows
of exactly `nf` tab fields, with a genes file matching the (possibly
`n_genes`-capped) row count: the table is the parsed weights indexed by the
genes. -/
theorem load_weight_matrix_genes_ok (path : String)
    (junk data genes : List String) (nf : Nat) (n_genes : Option Nat)
    (fuel : Nat)
    (hjunk : ∀ s ∈ junk, (fields s).length < nf)
    (hdata : ∀ s ∈ data, (fields s).length = nf)
    (hne : data ≠ [])
    (hfuel : junk.length < fuel)
    (hg : genes.length = cappedRows (effective_nrows n_genes) data.length) :
    load_weight_matrix path (junk ++ data) nf n_genes (some genes) fuel
      = some (Except.ok
          { indexName := some "genes"
            index := genes
            cols := (List.range nf).map ColLabel.ci
            rows := (takeOpt (effective_nrows n_genes) data).map
                      (fun s => (fields s).map some) }) := by
  obtain ⟨d0, data2, hd⟩ := List.exists_cons_of_ne_nil hne
  subst hd
  have hl : nf ≤ (fields d0).length :=
    le_of_eq (hdata d0 (List.mem_cons_self d0 data2)).symm
  simp only [load_weight_matrix, Option.isNone_some]
  rw [weight_matrix_file_skip_rows_eq path junk data2 d0 nf fuel
    (effective_nrows n_genes) false hjunk hl hfuel]
  rw [read_csv_eq_parse]
  obtain ⟨t, ht⟩ := takeOpt_effective_cons n_genes d0 data2
  have hwt : ∀ s ∈ d0 :: t, (fields s).length = nf := by
    intro s hs
    refine hdata s (takeOpt_subset (effective_nrows n_genes) (d0 :: data2) s ?_)
    rw [ht]
    exact hs
  rw [ht, (parse_fields_uniform d0 t nf hwt).1]
  have hlen2 : ((d0 :: t).map (fun s => (fields s).map some)).length
      = genes.length := by
    rw [List.length_map]
    have hcap := takeOpt_length (effective_nrows n_genes) (d0 :: data2)
    rw [ht] at hcap
    rw [hcap]
    exact hg.symm
  have hwrows : ∀ r ∈ (d0 :: t).map (fun s => (fields s).map some),
      r.length = nf := by
    intro r hr
    rw [List.mem_map] at hr
    obtain ⟨s, hs, rfl⟩ := hr
    rw [List.length_map]
    exact hwt s hs
  simp only []
  rw [set_index_concat_genes none _ nf _ genes hlen2 hwrows]

/-- C1 amended: on a file of junk lines followed by `m` data rows of exactly
`n_features` tab fields, the loader returns `m` rows (`min(m, n_genes)` when
capped) and `n_features` columns when a genes file of matching length is
supplied; when NO genes file is supplied the call instead raises the pandas
length-mismatch error, because `index_col=0` consumes the first field of
every row, leaving only `n_features - 1` weight columns for the
`n_features` labels assigned to `weight_matrix.columns`. -/
theorem load_weight_matrix_shape_amended (path : String)
    (junk data genes : List String) (n_features : Nat) (n_genes : Option Nat)
    (fuel : Nat)
    (hjunk : ∀ s ∈ junk, (fields s).length < n_features)
    (hdata : ∀ s ∈ data, (fields s).length = n_features)
    (hne : data ≠ [])
    (hfuel : junk.length < fuel)
    (hg : genes.length = cappedRows (effective_nrows n_genes) data.length) :
    (∃ df, load_weight_matrix path (junk ++ data) n_features n_genes
          (some genes) fuel = some (Except.ok df)
        ∧ df.rows.length = cappedRows (effective_nrows n_genes) data.length
        ∧ df.cols.length = n_features)
    ∧ load_weight_matrix path (junk ++ data) n_features n_genes none fuel
        = some (Except.error LoadError.lengthMismatch) := by
  constructor
  · refine ⟨_, load_weight_matrix_genes_ok path junk data genes n_features
      n_genes fuel hjunk hdata hne hfuel hg, ?_, ?_⟩
    · rw [List.length_map, takeOpt_length]
    · rw [List.length_map, List.length_range]
  · obtain ⟨d0, data2, hd⟩ := List.exists_cons_of_ne_nil hne
    subst hd
    have hl : n_features ≤ (fields d0).length :=
      le_of_eq (hdata d0 (List.mem_cons_self d0 data2)).symm
    have hnf : 1 ≤ n_features := by
      have h1 := fields_length_pos d0
      have h2 := hdata d0 (List.mem_cons_self d0 data2)
      omega
    simp only [load_weight_matrix, Option.isNone_none]
    rw [weight_matrix_file_skip_rows_eq path junk data2 d0 n_features fuel
      (effective_nrows n_genes) true hjunk hl hfuel]
    rw [read_csv_eq_parse]
    obtain ⟨t, ht⟩ := takeOpt_effective_cons n_genes d0 data2
    have hwt : ∀ s ∈ d0 :: t, (fields s).length = n_features := by
      intro s hs
      refine hdata s
        (takeOpt_subset (effective_nrows n_genes) (d0 :: data2) s ?_)
      rw [ht]
      exact hs
    rw [ht, (parse_fields_uniform d0 t n_features hwt).2]
    simp only [set_columns, List.length_map, List.length_range,
      List.length_drop]
    have hbeq : (n_features == n_features - 1) = false := by
      rw [beq_eq_false_iff_ne]
      omega
    rw [hbeq]
    simp

/-- C1, as written, is false with no genes file: on a file with one junk
line and two data rows of exactly two tab fields, `load_weight_matrix`
with `n_features = 2` and no genes file raises the length-mismatch error
instead of returning a 2-by-2 table. -/
theorem load_weight_matrix_shape_claim_counterexample :
    load_weight_matrix "wm.txt" ["x", "a\tb", "c\td"] 2 none none 4
      = some (Except.error LoadError.lengthMismatch) := rfl

theorem load_weight_matrix_shape_amended_witness :
    (∀ s ∈ ["x"], (fields s).length < 2)
      ∧ (∀ s ∈ ["a\tb", "c\td"], (fields s).length = 2)
      ∧ (["a\tb", "c\td"] : List String) ≠ []
      ∧ (["x"] : List String).length < 4
      ∧ (["g1"] : List String).length
          = cappedRows (effective_nrows (some 1))
              (["a\tb", "c\td"] : List String).length
      ∧ ((∃ df, load_weight_matrix "wm.txt" (["x"] ++ ["a\tb", "c\td"]) 2
              (some 1) (some ["g1"]) 4 = some (Except.ok df)
            ∧ df.rows.length = cappedRows (effective_nrows (some 1))
                (["a\tb", "c\td"] : List String).length
            ∧ df.cols.length = 2)
          ∧ load_weight_matrix "wm.txt" (["x"] ++ ["a\tb", "c\td"]) 2
              (some 1) none 4
            = some (Except.error LoadError.lengthMismatch)) :=
  ⟨by decide, by decide, by decide, by decide, by decide,
    load_weight_matrix_shape_amended "wm.txt" ["x"] ["a\tb", "c\td"] ["g1"] 2
      (some 1) 4 (by decide) (by decide) (by decide) (by decide) (by decide)⟩

/-- C4: with a genes file of exactly the number of detected data rows, the
returned table's row labels are the genes-file contents in file order, and
the row index is named "genes". -/
theorem load_weight_matrix_genes_row_labels (path : String)
    (junk data genes : List String) (n_features fuel : Nat)
    (hjunk : ∀ s ∈ junk, (fields s).length < n_features)
    (hdata : ∀ s ∈ data, (fields s).length = n_features)
    (hne : data ≠ [])
    (hfuel : junk.length < fuel)
    (hg : genes.length = data.length) :
    ∃ df, load_weight_matrix path (junk ++ data) n_features none (some genes)
          fuel = some (Except.ok df)
      ∧ df.index = genes ∧ df.indexName = some "genes" :=
  ⟨_, load_weight_matrix_genes_ok path junk data genes n_features none fuel
      hjunk hdata hne hfuel hg, rfl, rfl⟩

theorem load_weight_matrix_genes_row_labels_witness :
    (∀ s ∈ ["x"], (fields s).length < 2)
      ∧ (∀ s ∈ ["a\tb", "c\td"], (fields s).length = 2)
      ∧ (["a\tb", "c\td"] : List String) ≠ []
      ∧ (["x"] : List String).length < 4
      ∧ (["g1", "g2"] : List String).length
          = (["a\tb", "c\td"] : List String).length
      ∧ (∃ df, load_weight_matrix "wm.txt" (["x"] ++ ["a\tb", "c\td"]) 2 none
            (some ["g1", "g2"]) 4 = some (Except.ok df)
          ∧ df.index = ["g1", "g2"] ∧ df.indexName = some "genes") :=
  ⟨by decide, by decide, by decide, by decide, by decide,
    load_weight_matrix_genes_row_labels "wm.txt" ["x"] ["a\tb", "c\td"]
      ["g1", "g2"] 2 4 (by decide) (by decide) (by decide) (by decide)
      (by decide)⟩

end PathCORE
